import Mathlib

/-!
Verification of the fraud-detection core of the healthcare-fraud-detection
repository: feature extraction (`backend/app/ml/feature_extraction.py`),
model alignment and risk assessment (`backend/app/ml/fraud_model.py`), and
the rule-based explainer (`backend/app/core/fraud_explainer_service.py`),
shallowly embedded in Lean 4.

Modelling conventions:
* pandas DataFrames of entities become Lean lists of structures; a feature
  DataFrame becomes a list of rows, each row an ordered list of
  (column name, value) pairs.
* Machine floats become `Rat`.  A pandas cell can also hold NaN or ±inf,
  so feature values live in `PVal` (a rational or one of the three
  non-finite sentinels).
* Transcendental library calls (`np.log1p`, `.std()`'s square root) are
  embedded as fixed computable rational approximations; no claim below
  depends on their numeric value, only on their determinism.
* `datetime`/`pd.Timestamp` values are embedded as a minutes-since-epoch
  integer together with the calendar month of that instant (the only
  accessors the code uses are dayofweek, hour, month, ordering and
  day differences).
-/

/-- A pandas cell value: a finite rational, NaN, or a signed infinity. -/
inductive PVal where
  | num (q : ℚ)
  | nan
  | inf
  | ninf
deriving DecidableEq, Repr

/-- A value is finite when it is an actual number (not NaN/±inf). -/
def PVal.isFinite : PVal → Bool
  | .num _ => true
  | _ => false

/-- One feature row: ordered mapping from column name to cell value. -/
abbrev Row := List (String × PVal)

/-- Sum of a list of rationals. -/
def sumQ (l : List ℚ) : ℚ := l.foldr (· + ·) 0

/-- pandas `.mean()`: NaN on an empty column, otherwise the average. -/
def meanP (l : List ℚ) : PVal :=
  match l with
  | [] => .nan
  | _ => .num (sumQ l / (l.length : ℚ))

/-- pandas `.max()`: NaN on an empty column. -/
def maxP (l : List ℚ) : PVal :=
  match l with
  | [] => .nan
  | x :: xs => .num (xs.foldl max x)

/-- pandas `.min()`: NaN on an empty column. -/
def minP (l : List ℚ) : PVal :=
  match l with
  | [] => .nan
  | x :: xs => .num (xs.foldl min x)

/-- One Newton step towards the square root of `q`. -/
def sqrtStep (q x : ℚ) : ℚ := (x + q / x) / 2

/-- Fixed rational approximation of the floating-point square root used by
pandas `.std()`; exact at 0.  Only applied under the source's `len > 1`
guard; no claim depends on its numeric value. -/
def ratSqrt (q : ℚ) : ℚ :=
  if q ≤ 0 then 0 else (sqrtStep q)^[6] ((q + 1) / 2)

/-- pandas `Series.std()` (sample standard deviation, ddof = 1) under the
source's `len > 1` guard. -/
def stdQ (l : List ℚ) : ℚ :=
  match l with
  | [] => 0
  | _ =>
    let m := sumQ l / (l.length : ℚ)
    ratSqrt (sumQ (l.map (fun x => (x - m) * (x - m))) / ((l.length : ℚ) - 1))

/-- Fixed rational approximation standing in for `np.log1p`; no claim
depends on its numeric value, only on its determinism. -/
def ratLog1p (x : ℚ) : ℚ := x * (6 + x) / (6 + 4 * x)

/-- Lexicographic comparison on character lists (by code point). -/
def ltCharList : List Char → List Char → Bool
  | [], [] => false
  | [], _ :: _ => true
  | _ :: _, [] => false
  | a :: as, b :: bs =>
    if a.toNat < b.toNat then true
    else if b.toNat < a.toNat then false
    else ltCharList as bs

/-- String comparison used to embed the sorted order pandas gives one-hot
columns. -/
def ltStr (a b : String) : Bool := ltCharList a.data b.data

/-- Insert into a sorted list of strings. -/
def insertStr (x : String) : List String → List String
  | [] => [x]
  | y :: ys => if ltStr x y then x :: y :: ys else y :: insertStr x ys

/-- Insertion sort on strings. -/
def sortStr : List String → List String
  | [] => []
  | x :: xs => insertStr x (sortStr xs)

/-- Sorted list of the distinct values of a column: the category order
`pd.get_dummies` gives its indicator columns. -/
def sortedUnique (l : List String) : List String := sortStr l.dedup

/-- A `pd.Timestamp`, abstracted by the accessors the code uses:
`ts` is minutes since the epoch, `month` the calendar month. -/
structure DateTime where
  ts : Int
  month : Nat
deriving DecidableEq, Repr

/-- Embeds `Timestamp.dayofweek` (constant epoch offset not modelled; only used
as an opaque deterministic value). -/
def DateTime.dayofweek (d : DateTime) : Nat := ((d.ts.fdiv 1440).fmod 7).toNat

/-- Embeds `Timestamp.hour`. -/
def DateTime.hour (d : DateTime) : Nat := ((d.ts.fmod 1440).fdiv 60).toNat

/-- Embeds `(t1 - t2).days` of a pandas `Timedelta` (floor of the day count). -/
def dateDiffDays (t1 t2 : DateTime) : Int := (t1.ts - t2.ts).fdiv 1440

/-- Minimum timestamp of a list of dates (pandas `.min()`; callers only use
it on non-empty histories). -/
def minTs (l : List Int) : Int :=
  match l with
  | [] => 0
  | x :: xs => xs.foldl min x

/-- Maximum timestamp of a list of dates. -/
def maxTs (l : List Int) : Int :=
  match l with
  | [] => 0
  | x :: xs => xs.foldl max x

/-- A row of `patients.csv`.  `date_of_birth` is `none` when unparseable
(the `pd.to_datetime` failure branch of the source). -/
structure Patient where
  patient_id : String
  date_of_birth : Option Int
  gender : String
deriving DecidableEq, Repr

/-- A row of `providers.csv`.  `specialty` is `none` for a NaN cell. -/
structure Provider where
  provider_id : String
  specialty : Option String
deriving DecidableEq, Repr

/-- A row of `claims.csv` (the columns this dataset has; the
`admission_type` / `length_of_stay` branches of the source are dead for
this dataset and not modelled). -/
structure Claim where
  claim_id : String
  patient_id : String
  provider_id : String
  claim_amount : ℚ
  claim_type : String
  claim_status : String
  service_date : DateTime
  is_fraudulent : Bool
deriving DecidableEq, Repr

/-- The loaded entity store.  `hasFraudLabels` models whether the
`is_fraudulent` column is present in the claim table (the source checks
column presence).  `now` is the evaluation instant (`datetime.now()`),
in days since the epoch, used for patient age. -/
structure Database where
  patients : List Patient
  providers : List Provider
  claims : List Claim
  hasFraudLabels : Bool
  now : Int
deriving DecidableEq, Repr

/-! ## Relationship graph (`CSVDataLoader._build_graph`) -/

/-- The undirected patient–provider graph: node names plus one edge per
claim (`nx.Graph`; parallel claim edges collapse onto one adjacency). -/
structure GraphT where
  nodes : List String
  edges : List (String × String)
deriving DecidableEq, Repr

/-- Embeds `_build_graph`: one node per patient id and per provider id, one edge
per claim; `nx.add_edge` also inserts missing endpoint nodes. -/
def buildGraph (db : Database) : GraphT :=
  { nodes := (db.patients.map (·.patient_id) ++ db.providers.map (·.provider_id)
      ++ db.claims.map (·.patient_id) ++ db.claims.map (·.provider_id)).dedup
    edges := db.claims.map (fun c => (c.patient_id, c.provider_id)) }

/-- Node membership (`x in graph`). -/
def memNode (g : GraphT) (x : String) : Bool := g.nodes.contains x

/-- Embeds `graph.has_edge(x, y)` (undirected). -/
def adjB (g : GraphT) (x y : String) : Bool :=
  g.edges.any (fun e => (e.1 == x && e.2 == y) || (e.1 == y && e.2 == x))

/-- The `node_type` attribute: the provider pass of `_build_graph` runs
after the patient pass, so a shared id ends up `provider`; nodes created
only by `add_edge` carry no attribute (read back as `unknown`). -/
def nodeType (db : Database) (x : String) : String :=
  if db.providers.any (fun p => p.provider_id == x) then "provider"
  else if db.patients.any (fun p => p.patient_id == x) then "patient"
  else "unknown"

/-- Distinct neighbours of a node. -/
def neighborsOf (g : GraphT) (x : String) : List String :=
  g.nodes.filter (fun y => adjB g x y)

/-- Embeds `graph.degree(x)` (no self-loops arise in this schema: patient and
provider ids are disjoint namespaces). -/
def degreeOf (g : GraphT) (x : String) : Nat := (neighborsOf g x).length

/-- Number of adjacent unordered pairs within a list of nodes. -/
def countAdjPairs (g : GraphT) : List String → Nat
  | [] => 0
  | x :: xs => (xs.filter (fun y => adjB g x y)).length + countAdjPairs g xs

/-- Embeds `nx.clustering`: local clustering coefficient, 0 below degree 2. -/
def clusteringCoeff (g : GraphT) (x : String) : ℚ :=
  let n := neighborsOf g x
  if n.length < 2 then 0
  else (2 * countAdjPairs g n : ℚ) / ((n.length : ℚ) * ((n.length : ℚ) - 1))

/-- Embeds the external `nx.betweenness_centrality` library call.  No claim
in this development depends on its numeric value — only on the feature
being a deterministic function of the whole graph — so the library's
output is modelled abstractly as such a function. -/
def betweennessCentrality (_g : GraphT) (_x : String) : ℚ := 0

/-- Shared-neighbour count between two nodes; 0 when either is absent. -/
def sharedNeighborsCount (g : GraphT) (x y : String) : Nat :=
  if memNode g x && memNode g y then
    ((neighborsOf g x).filter (fun z => (neighborsOf g y).contains z)).length
  else 0

/-- The other endpoints of the edges incident to `x`. -/
def successors (g : GraphT) (x : String) : List String :=
  g.edges.filterMap (fun e =>
    if e.1 == x then some e.2 else if e.2 == x then some e.1 else none)

/-- Walk predicate `reachIn g n a b`: there is a walk of exactly `n` edges from `a` to
`b`. -/
def reachIn (g : GraphT) : Nat → String → String → Bool
  | 0, a, b => a == b
  | n + 1, a, b => (successors g a).any (fun c => reachIn g n c b)

/-- Linear search for the least walk length, starting at `cur`, trying at
most `fuel` lengths. -/
def firstReachAux (g : GraphT) (a b : String) : Nat → Nat → Option Nat
  | 0, _ => none
  | fuel + 1, cur =>
    if reachIn g cur a b then some cur else firstReachAux g a b fuel (cur + 1)

/-- Every vertex of a multi-vertex walk is an edge endpoint, so walk
lengths are bounded by this list's length. -/
def endpointList (g : GraphT) : List String :=
  g.edges.map Prod.fst ++ g.edges.map Prod.snd

/-- Executable embedding of the external `nx.shortest_path_length` call:
the least `n` with a walk of `n` hops (`none` when unreachable, i.e.
`nx.NetworkXNoPath`).  The search bound is justified by
`shortestPathLen_eq_find` below. -/
def shortestPathLen (g : GraphT) (a b : String) : Option Nat :=
  firstReachAux g a b ((endpointList g).length + 1) 0

/-- The `graph_distance` feature of `_extract_graph_features`: 1 on a
direct edge, else the shortest-path hop count, else the 999 sentinel
(also used when either endpoint is absent). -/
def graphDistance (g : GraphT) (p q : String) : ℚ :=
  if memNode g p && memNode g q then
    if adjB g p q then 1
    else
      match shortestPathLen g p q with
      | some d => (d : ℚ)
      | none => 999
  else 999

/-! ## Feature extraction (`FraudFeatureExtractor`) -/

/-- Category order of `pd.get_dummies` over the subset's `claim_type`
column. -/
def claimTypeSchema (subset : List Claim) : List String :=
  sortedUnique (subset.map (·.claim_type))

/-- Category order of `pd.get_dummies` over the subset's `claim_status`
column. -/
def claimStatusSchema (subset : List Claim) : List String :=
  sortedUnique (subset.map (·.claim_status))

/-- Embeds `_extract_claim_features`, one row: amount, log-amount, and the
one-hot indicators for the given (subset-derived) category schemas. -/
def claimFeatureRow (typeSchema statusSchema : List String) (c : Claim) : Row :=
  [("claim_amount", .num c.claim_amount),
   ("claim_amount_log", .num (ratLog1p c.claim_amount))]
  ++ typeSchema.map (fun t =>
      ("claim_type_" ++ t, PVal.num (if c.claim_type = t then 1 else 0)))
  ++ statusSchema.map (fun s =>
      ("status_" ++ s, PVal.num (if c.claim_status = s then 1 else 0)))

/-- A patient's full claim history (always `self.claims_df`, never the
requested subset). -/
def patientClaims (db : Database) (pid : String) : List Claim :=
  db.claims.filter (fun c => c.patient_id == pid)

/-- A provider's full claim history. -/
def providerClaims (db : Database) (pid : String) : List Claim :=
  db.claims.filter (fun c => c.provider_id == pid)

/-- The `patient_age` feature: age in years from `date_of_birth` against
`datetime.now()` (`db.now`, in days), 45 on an unparseable birth date, and
a NaN cell when the claim's patient id has no row in the patient table
(`Series.map` over a dict without the key). -/
def ageOf (db : Database) (pid : String) : PVal :=
  match db.patients.find? (fun p => p.patient_id == pid) with
  | none => .nan
  | some p =>
    match p.date_of_birth with
    | none => .num 45
    | some dob => .num ((((db.now - dob : Int)) : ℚ) / (1461 / 4))

/-- The `patient_is_male` indicator; a missing patient defaults to `'M'`
(`dict.get(x, 'M')`). -/
def genderIsMale (db : Database) (pid : String) : ℚ :=
  match db.patients.find? (fun p => p.patient_id == pid) with
  | none => 1
  | some p => if p.gender = "M" then 1 else 0

/-- Embeds `_extract_patient_features`, one row (statistics over the patient's
full history). -/
def patientFeatureRow (db : Database) (c : Claim) : Row :=
  let pc := patientClaims db c.patient_id
  let amounts := pc.map (·.claim_amount)
  [("patient_num_claims", .num (pc.length : ℚ)),
   ("patient_total_claimed", .num (sumQ amounts)),
   ("patient_avg_claim", meanP amounts),
   ("patient_max_claim", maxP amounts),
   ("patient_min_claim", minP amounts),
   ("patient_std_claim", if pc.length > 1 then .num (stdQ amounts) else .num 0),
   ("patient_num_providers", .num (((pc.map (·.provider_id)).dedup.length : ℚ))),
   ("patient_age", ageOf db c.patient_id),
   ("patient_is_male", .num (genderIsMale db c.patient_id))]

/-- The `provider_fraud_rate` feature: mean of the boolean fraud column
over the provider's labelled claims when the claim table has the
`is_fraudulent` column, else 0. -/
def providerFraudRate (db : Database) (pid : String) : PVal :=
  if db.hasFraudLabels then
    meanP ((providerClaims db pid).map (fun c => if c.is_fraudulent then (1 : ℚ) else 0))
  else .num 0

/-- Specialty one-hot schema: sorted distinct non-NaN specialties of the
full provider population (request-independent by construction). -/
def specialtySchema (db : Database) : List String :=
  sortStr (db.providers.filterMap (·.specialty)).dedup

/-- A provider's specialty cell (None for a missing provider or NaN
cell). -/
def specialtyOf (db : Database) (pid : String) : Option String :=
  (db.providers.find? (fun p => p.provider_id == pid)).bind (·.specialty)

/-- Embeds `_extract_provider_features`, one row. -/
def providerFeatureRow (db : Database) (c : Claim) : Row :=
  let pc := providerClaims db c.provider_id
  let amounts := pc.map (·.claim_amount)
  [("provider_num_claims", .num (pc.length : ℚ)),
   ("provider_total_billed", .num (sumQ amounts)),
   ("provider_avg_claim", meanP amounts),
   ("provider_max_claim", maxP amounts),
   ("provider_std_claim", if pc.length > 1 then .num (stdQ amounts) else .num 0),
   ("provider_num_patients", .num (((pc.map (·.patient_id)).dedup.length : ℚ))),
   ("provider_fraud_rate", providerFraudRate db c.provider_id)]
  ++ (specialtySchema db).map (fun s =>
      ("specialty_" ++ s, PVal.num (if specialtyOf db c.provider_id = some s then 1 else 0)))

/-- Timestamp of the patient's first recorded claim (full history). -/
def firstClaimTs (db : Database) (pid : String) : Int :=
  minTs ((patientClaims db pid).map (·.service_date.ts))

/-- The `patient_claim_frequency` feature: claims per day over the span
between the patient's first and last claim (full history), 0 for a single
claim. -/
def claimFrequency (db : Database) (pid : String) : ℚ :=
  let pc := patientClaims db pid
  let dates := pc.map (·.service_date.ts)
  if pc.length > 1 then
    ((pc.length : ℚ)) / (((max ((maxTs dates - minTs dates).fdiv 1440 + 1) 1 : Int)) : ℚ)
  else 0

/-- Embeds `_extract_temporal_features`, one row. -/
def temporalFeatureRow (db : Database) (c : Claim) : Row :=
  [("service_day_of_week", .num ((c.service_date.dayofweek : ℚ))),
   ("is_weekend", .num (if c.service_date.dayofweek ≥ 5 then 1 else 0)),
   ("service_month", .num ((c.service_date.month : ℚ))),
   ("service_hour", .num ((c.service_date.hour : ℚ))),
   ("is_night", .num (if c.service_date.hour < 6 ∨ c.service_date.hour > 20 then 1 else 0)),
   ("days_since_first_claim",
     .num (((c.service_date.ts - firstClaimTs db c.patient_id).fdiv 1440 : Int) : ℚ)),
   ("patient_claim_frequency", .num (claimFrequency db c.patient_id))]

/-- Degree feature: only nodes whose `node_type` attribute is `patient`
enter the degree dict; everything else reads back 0. -/
def patientDegreeFeature (db : Database) (x : String) : ℚ :=
  if memNode (buildGraph db) x && (nodeType db x == "patient") then
    ((degreeOf (buildGraph db) x : ℚ)) else 0

/-- Degree feature for provider-typed nodes. -/
def providerDegreeFeature (db : Database) (x : String) : ℚ :=
  if memNode (buildGraph db) x && (nodeType db x == "provider") then
    ((degreeOf (buildGraph db) x : ℚ)) else 0

/-- Betweenness feature: computed only below the 5000-node ceiling, else
0; absent nodes read back 0. -/
def betweennessFeature (db : Database) (x : String) : ℚ :=
  if (buildGraph db).nodes.length < 5000 && memNode (buildGraph db) x then
    betweennessCentrality (buildGraph db) x
  else 0

/-- Clustering feature: the `nx.clustering` dict covers exactly the graph
nodes; absent nodes read back 0. -/
def clusteringFeature (db : Database) (x : String) : ℚ :=
  if memNode (buildGraph db) x then clusteringCoeff (buildGraph db) x else 0

/-- Embeds `_extract_graph_features`, one row. -/
def graphFeatureRow (db : Database) (c : Claim) : Row :=
  [("patient_degree", .num (patientDegreeFeature db c.patient_id)),
   ("provider_degree", .num (providerDegreeFeature db c.provider_id)),
   ("patient_betweenness", .num (betweennessFeature db c.patient_id)),
   ("provider_betweenness", .num (betweennessFeature db c.provider_id)),
   ("patient_clustering", .num (clusteringFeature db c.patient_id)),
   ("provider_clustering", .num (clusteringFeature db c.provider_id)),
   ("shared_neighbors", .num ((sharedNeighborsCount (buildGraph db) c.patient_id c.provider_id : ℚ))),
   ("graph_distance", .num (graphDistance (buildGraph db) c.patient_id c.provider_id))]

/-- The claims selected by a request (`None` = all, else
`claims_df['claim_id'].isin(claim_ids)`; requested ids without a matching
claim are silently skipped). -/
def subsetClaims (db : Database) (ids : Option (List String)) : List Claim :=
  match ids with
  | none => db.claims
  | some l => db.claims.filter (fun c => l.contains c.claim_id)

/-- One claim's full feature row: the concatenation of the five groups in
source order.  Only the claim-attribute group depends on the requested
subset (through the two `get_dummies` category schemas). -/
def featureRow (db : Database) (subset : List Claim) (c : Claim) : Row :=
  claimFeatureRow (claimTypeSchema subset) (claimStatusSchema subset) c
    ++ patientFeatureRow db c ++ providerFeatureRow db c
    ++ temporalFeatureRow db c ++ graphFeatureRow db c

/-- Embeds `extract_all_features`: one keyed row per selected claim.  On an empty
selection `_extract_patient_features` raises `IndexError` at
`patient_stats[patient_ids[0]]`, embedded as the error case. -/
def extract_all_features (db : Database) (ids : Option (List String)) :
    Except String (List (String × Row)) :=
  let subset := subsetClaims db ids
  if subset.isEmpty then .error "IndexError: patient_ids is empty"
  else .ok (subset.map (fun c => (c.claim_id, featureRow db subset c)))

/-- The caller-side `fillna(0)` / `replace([inf, -inf], 0)` step of
`prepare_training_data` and of the detection service. -/
def fillNonFinite (r : Row) : Row :=
  r.map (fun p => (p.1, if p.2.isFinite then p.2 else .num 0))

/-- The extraction path of `detect_fraud_by_claim_ids` up to the model
call: extract, then normalize non-finite cells to 0. -/
def extract_features_filled (db : Database) (ids : Option (List String)) :
    Except String (List (String × Row)) :=
  (extract_all_features db ids).map (List.map (fun p => (p.1, fillNonFinite p.2)))

/-- Embeds `prepare_training_data`: features for all claims, left-merged labels,
then the same non-finite normalization. -/
def prepare_training_data (db : Database) : Except String (List (Row × Bool)) :=
  (extract_all_features db none).map (fun l => l.map (fun p =>
    (fillNonFinite p.2,
      match db.claims.find? (fun c => c.claim_id == p.1) with
      | some c => c.is_fraudulent
      | none => false)))

/-! ## Model artifact and scoring (`fraud_model.py`) -/

/-- A feature matrix: row count plus named columns (pandas DataFrame with
unique column names, as produced by extraction/training in this
program). -/
structure Frame where
  nrows : Nat
  cols : List (String × List ℚ)
deriving DecidableEq, Repr

/-- Embeds `FraudDetectionModel._align_features`: add a zero column for every
schema name missing from `X`, drop columns outside the schema, reorder to
the schema exactly. -/
def align_features (schema : List String) (X : Frame) : Frame :=
  { nrows := X.nrows
    cols := schema.map (fun n =>
      (n, match X.cols.find? (fun p => p.1 == n) with
          | some p => p.2
          | none => List.replicate X.nrows 0)) }

/-- The probability-to-risk-level mapping inlined in
`FraudRiskAssessor.assess_claims`. -/
def riskLevel (p : ℚ) : String :=
  if p ≥ 4 / 5 then "CRITICAL"
  else if p ≥ 3 / 5 then "HIGH"
  else if p ≥ 2 / 5 then "MEDIUM"
  else if p ≥ 1 / 5 then "LOW"
  else "MINIMAL"

/-- Severity order of the five risk levels (for the monotonicity
property). -/
def sevRank (s : String) : Nat :=
  if s = "CRITICAL" then 4
  else if s = "HIGH" then 3
  else if s = "MEDIUM" then 2
  else if s = "LOW" then 1
  else 0

/-- A per-claim feature row as seen by the assessor (finite values: the
service normalizes non-finite cells before calling it). -/
abbrev QRow := List (String × ℚ)

/-- The risk-factor selection of `assess_claims`: walk the five
highest-ranked features, keep those present in the row with
`abs(value) > 0.1`, then cap at three. -/
def riskFactorsOf (topFeatures : List String) (row : QRow) : List (String × ℚ) :=
  ((topFeatures.take 5).filterMap (fun f =>
    match row.find? (fun p => p.1 == f) with
    | some p => if 1 / 10 < |p.2| then some (f, p.2) else none
    | none => none)).take 3

/-- One risk assessment, as assembled by `assess_claims`. -/
structure Assessment where
  claim_id : String
  is_fraud_predicted : Bool
  fraud_probability : ℚ
  risk_level : String
  risk_factors : List (String × ℚ)
  confidence : ℚ
deriving DecidableEq, Repr

/-- Embeds `FraudRiskAssessor.assess_claims`.  The trained classifier is an
external capability: its label/probability outputs and its
importance-sorted feature ranking are inputs here.  `top_features` is the
head-10 of the ranking; rows, ids, labels and probabilities are consumed
zip-wise. -/
def assessClaims (ranking : List String) :
    List QRow → List String → List Bool → List ℚ → List Assessment
  | row :: rows, cid :: cids, pr :: prs, pb :: pbs =>
    { claim_id := cid
      is_fraud_predicted := pr
      fraud_probability := pb
      risk_level := riskLevel pb
      risk_factors := riskFactorsOf (ranking.take 10) row
      confidence := max pb (1 - pb) } :: assessClaims ranking rows cids prs pbs
  | _, _, _, _ => []

/-! ## Explanation engine (`fraud_explainer_service.py`) -/

/-- One rule template row of `EXPLANATION_TEMPLATES` (the message text is
behaviourally inert and not modelled). -/
structure RuleTemplate where
  threshold : ℚ
  severity : String
  category : String
deriving DecidableEq, Repr

/-- The fixed `EXPLANATION_TEMPLATES` table. -/
def EXPLANATION_TEMPLATES : List (String × RuleTemplate) :=
  [("claim_to_typical_cost_ratio", ⟨2, "HIGH", "Amount Anomaly"⟩),
   ("provider_fraud_rate", ⟨3 / 20, "CRITICAL", "Provider Pattern"⟩),
   ("provider_weekend_claim_percentage", ⟨3 / 10, "MEDIUM", "Provider Pattern"⟩),
   ("patient_provider_shopping", ⟨3, "HIGH", "Patient Behavior"⟩),
   ("provider_claims_per_day", ⟨20, "MEDIUM", "Provider Pattern"⟩),
   ("shared_address_score", ⟨1 / 2, "HIGH", "Relationship Pattern"⟩),
   ("fraud_ring_membership", ⟨1 / 2, "CRITICAL", "Relationship Pattern"⟩),
   ("provider_referral_reciprocity", ⟨3 / 5, "HIGH", "Relationship Pattern"⟩),
   ("days_since_policy_start", ⟨-30, "MEDIUM", "Timing Issue"⟩),
   ("patient_claim_frequency", ⟨10, "MEDIUM", "Patient Behavior"⟩)]

/-- Template lookup by feature name. -/
def lookupTemplate (name : String) : Option RuleTemplate :=
  (EXPLANATION_TEMPLATES.find? (fun p => p.1 == name)).map Prod.snd

/-- The threshold test of `_generate_red_flags`: non-negative thresholds
flag on `value ≥ threshold`, negative thresholds flag on
`value ≤ abs(threshold)`. -/
def shouldFlag (threshold v : ℚ) : Bool :=
  (decide (0 ≤ threshold) && decide (threshold ≤ v))
    || (decide (threshold < 0) && decide (v ≤ |threshold|))

/-- One emitted red flag (`id`, category, severity, and the feature it
came from; the formatted description text is not modelled). -/
structure RedFlag where
  id : Nat
  category : String
  severity : String
  factor : String
deriving DecidableEq, Repr

/-- The per-factor branch of `_generate_red_flags`: a templated factor
flags iff `shouldFlag`; an untemplated factor yields a generic LOW flag
iff `abs(value) > 1`. -/
def flagFor (i : Nat) (factor : String × ℚ) : Option RedFlag :=
  match lookupTemplate factor.1 with
  | some t =>
    if shouldFlag t.threshold factor.2 then
      some ⟨i, t.category, t.severity, factor.1⟩
    else none
  | none =>
    if 1 < |factor.2| then some ⟨i, "Data Anomaly", "LOW", factor.1⟩ else none

/-- Embeds `_generate_red_flags`: enumerate the risk factors from 1 and collect
the emitted flags. -/
def generate_red_flags (factors : List (String × ℚ)) : List RedFlag :=
  (factors.enum.map (fun p => (p.1 + 1, p.2))).filterMap (fun p => flagFor p.1 p.2)

/-! ## Risk-level lemmas (for C2) -/

lemma riskLevel_eq_critical (p : ℚ) : riskLevel p = "CRITICAL" ↔ 4 / 5 ≤ p := by
  unfold riskLevel
  split_ifs with h1 h2 h3 h4
  · exact ⟨fun _ => h1, fun _ => rfl⟩
  · exact ⟨fun h => absurd h (by decide), fun h => absurd h h1⟩
  · exact ⟨fun h => absurd h (by decide), fun h => absurd h h1⟩
  · exact ⟨fun h => absurd h (by decide), fun h => absurd h h1⟩
  · exact ⟨fun h => absurd h (by decide), fun h => absurd h h1⟩

lemma riskLevel_eq_high (p : ℚ) : riskLevel p = "HIGH" ↔ 3 / 5 ≤ p ∧ p < 4 / 5 := by
  unfold riskLevel
  split_ifs with h1 h2 h3 h4
  · exact ⟨fun h => absurd h (by decide), fun h => absurd h1 (not_le.mpr h.2)⟩
  · exact ⟨fun _ => ⟨h2, not_le.mp h1⟩, fun _ => rfl⟩
  · exact ⟨fun h => absurd h (by decide), fun h => absurd h.1 h2⟩
  · exact ⟨fun h => absurd h (by decide), fun h => absurd h.1 h2⟩
  · exact ⟨fun h => absurd h (by decide), fun h => absurd h.1 h2⟩

lemma riskLevel_eq_medium (p : ℚ) : riskLevel p = "MEDIUM" ↔ 2 / 5 ≤ p ∧ p < 3 / 5 := by
  unfold riskLevel
  split_ifs with h1 h2 h3 h4
  · exact ⟨fun h => absurd h (by decide), fun h => absurd h1 (not_le.mpr (lt_trans h.2 (by norm_num)))⟩
  · exact ⟨fun h => absurd h (by decide), fun h => absurd h2 (not_le.mpr h.2)⟩
  · exact ⟨fun _ => ⟨h3, not_le.mp h2⟩, fun _ => rfl⟩
  · exact ⟨fun h => absurd h (by decide), fun h => absurd h.1 h3⟩
  · exact ⟨fun h => absurd h (by decide), fun h => absurd h.1 h3⟩

lemma riskLevel_eq_low (p : ℚ) : riskLevel p = "LOW" ↔ 1 / 5 ≤ p ∧ p < 2 / 5 := by
  unfold riskLevel
  split_ifs with h1 h2 h3 h4
  · exact ⟨fun h => absurd h (by decide), fun h => absurd h1 (not_le.mpr (lt_trans h.2 (by norm_num)))⟩
  · exact ⟨fun h => absurd h (by decide), fun h => absurd h2 (not_le.mpr (lt_trans h.2 (by norm_num)))⟩
  · exact ⟨fun h => absurd h (by decide), fun h => absurd h3 (not_le.mpr h.2)⟩
  · exact ⟨fun _ => ⟨h4, not_le.mp h3⟩, fun _ => rfl⟩
  · exact ⟨fun h => absurd h (by decide), fun h => absurd h.1 h4⟩

lemma riskLevel_eq_minimal (p : ℚ) : riskLevel p = "MINIMAL" ↔ p < 1 / 5 := by
  unfold riskLevel
  split_ifs with h1 h2 h3 h4
  · exact ⟨fun h => absurd h (by decide), fun h => absurd h1 (not_le.mpr (lt_trans h (by norm_num)))⟩
  · exact ⟨fun h => absurd h (by decide), fun h => absurd h2 (not_le.mpr (lt_trans h (by norm_num)))⟩
  · exact ⟨fun h => absurd h (by decide), fun h => absurd h3 (not_le.mpr (lt_trans h (by norm_num)))⟩
  · exact ⟨fun h => absurd h (by decide), fun h => absurd h4 (not_le.mpr h)⟩
  · exact ⟨fun _ => not_le.mp h4, fun _ => rfl⟩

lemma riskLevel_mono (p q : ℚ) (hpq : p ≤ q) :
    sevRank (riskLevel p) ≤ sevRank (riskLevel q) := by
  unfold riskLevel
  split_ifs <;> simp_all only [sevRank, not_le] <;> first | decide | linarith

lemma mem_assessClaims (ranking : List String) :
    ∀ (rows : List QRow) (cids : List String) (prs : List Bool) (pbs : List ℚ)
      (a : Assessment), a ∈ assessClaims ranking rows cids prs pbs →
      ∃ row, a.risk_level = riskLevel a.fraud_probability ∧
             a.risk_factors = riskFactorsOf (ranking.take 10) row ∧
             a.confidence = max a.fraud_probability (1 - a.fraud_probability) := by
  intro rows
  induction rows with
  | nil => intro cids prs pbs a h; simp [assessClaims] at h
  | cons row rows ih =>
    intro cids prs pbs a h
    cases cids with
    | nil => simp [assessClaims] at h
    | cons cid cids =>
      cases prs with
      | nil => simp [assessClaims] at h
      | cons pr prs =>
        cases pbs with
        | nil => simp [assessClaims] at h
        | cons pb pbs =>
          rw [assessClaims] at h
          rcases List.mem_cons.mp h with h | h
          · exact ⟨row, by simp [h]⟩
          · exact ih cids prs pbs a h

/-- C2: for p in [0,1], assess_claims assigns CRITICAL iff p ≥ 0.80, HIGH
iff 0.60 ≤ p < 0.80, MEDIUM iff 0.40 ≤ p < 0.60, LOW iff 0.20 ≤ p < 0.40,
MINIMAL iff p < 0.20; bands are closed at the lower bound, severity is
monotone in p, and every assessment's level is `riskLevel` of its
probability. -/
theorem C2_risk_bands (p : ℚ) (h0 : 0 ≤ p) (h1 : p ≤ 1) :
    (riskLevel p = "CRITICAL" ↔ 4 / 5 ≤ p)
  ∧ (riskLevel p = "HIGH" ↔ 3 / 5 ≤ p ∧ p < 4 / 5)
  ∧ (riskLevel p = "MEDIUM" ↔ 2 / 5 ≤ p ∧ p < 3 / 5)
  ∧ (riskLevel p = "LOW" ↔ 1 / 5 ≤ p ∧ p < 2 / 5)
  ∧ (riskLevel p = "MINIMAL" ↔ p < 1 / 5)
  ∧ (∀ q : ℚ, p ≤ q → sevRank (riskLevel p) ≤ sevRank (riskLevel q))
  ∧ (∀ (ranking : List String) rows cids prs pbs (a : Assessment),
       a ∈ assessClaims ranking rows cids prs pbs →
       a.risk_level = riskLevel a.fraud_probability) := by
  refine ⟨riskLevel_eq_critical p, riskLevel_eq_high p, riskLevel_eq_medium p,
    riskLevel_eq_low p, riskLevel_eq_minimal p,
    fun q hq => riskLevel_mono p q hq,
    fun ranking rows cids prs pbs a ha => ?_⟩
  obtain ⟨row, hlvl, -, -⟩ := mem_assessClaims ranking rows cids prs pbs a ha
  exact hlvl

/-- Witness for C2 at the spec's boundary probabilities. -/
theorem C2_witness :
    riskLevel (4 / 5) = "CRITICAL" ∧ riskLevel (7999 / 10000) = "HIGH"
  ∧ riskLevel (3 / 5) = "HIGH" ∧ riskLevel (1 / 5) = "LOW"
  ∧ riskLevel (1999 / 10000) = "MINIMAL" := by
  refine ⟨?_, ?_, ?_, ?_, ?_⟩
  · exact (C2_risk_bands (4 / 5) (by norm_num) (by norm_num)).1.mpr (by norm_num)
  · exact (C2_risk_bands (7999 / 10000) (by norm_num) (by norm_num)).2.1.mpr (by norm_num)
  · exact (C2_risk_bands (3 / 5) (by norm_num) (by norm_num)).2.1.mpr (by norm_num)
  · exact (C2_risk_bands (1 / 5) (by norm_num) (by norm_num)).2.2.2.1.mpr (by norm_num)
  · exact (C2_risk_bands (1999 / 10000) (by norm_num) (by norm_num)).2.2.2.2.1.mpr (by norm_num)

/-! ## Alignment lemmas (for C5) -/

lemma find?_map_pair (l : List String) (v : String → List ℚ) (n : String) :
    (l.map (fun m => (m, v m))).find? (fun p => p.1 == n)
      = (l.find? (fun m => m == n)).map (fun m => (m, v m)) := by
  induction l with
  | nil => rfl
  | cons x xs ih =>
    cases hx : (x == n) with
    | true => simp [List.find?_cons, hx]
    | false => simp [List.find?_cons, hx, ih]

lemma find?_self_of_mem (l : List String) (n : String) (h : n ∈ l) :
    l.find? (fun m => m == n) = some n := by
  induction l with
  | nil => cases h
  | cons x xs ih =>
    rcases List.mem_cons.mp h with rfl | h2
    · simp [List.find?_cons]
    · cases hx : (x == n) with
      | true => simp [List.find?_cons, hx, eq_of_beq hx]
      | false => simp only [List.find?_cons, hx]; exact ih h2

lemma find?_pair_nodup (L : List (String × List ℚ)) (p0 : String × List ℚ)
    (hnd : (L.map Prod.fst).Nodup) (hmem : p0 ∈ L) :
    L.find? (fun q => q.1 == p0.1) = some p0 := by
  induction L with
  | nil => cases hmem
  | cons x xs ih =>
    rcases List.mem_cons.mp hmem with rfl | h2
    · simp [List.find?_cons]
    · have hx : (x.1 == p0.1) = false := by
        have hnotin : x.1 ∉ xs.map Prod.fst := (List.nodup_cons.mp hnd).1
        have hin : p0.1 ∈ xs.map Prod.fst := List.mem_map_of_mem Prod.fst h2
        exact beq_eq_false_iff_ne.mpr (fun e => hnotin (e ▸ hin))
      simp only [List.find?_cons, hx]
      exact ih (List.nodup_cons.mp hnd).2 h2

/-- The column a lookup in an aligned frame produces, by schema name. -/
def alignedCol (X : Frame) (n : String) : List ℚ :=
  match X.cols.find? (fun p => p.1 == n) with
  | some p => p.2
  | none => List.replicate X.nrows 0

lemma align_features_cols (schema : List String) (X : Frame) :
    (align_features schema X).cols = schema.map (fun n => (n, alignedCol X n)) := rfl

lemma align_names (schema : List String) (X : Frame) :
    (align_features schema X).cols.map Prod.fst = schema := by
  rw [align_features_cols, List.map_map]
  exact (List.map_congr_left (fun a _ => rfl)).trans (List.map_id' schema)

lemma align_self (schema : List String) (X : Frame)
    (hnd : (X.cols.map Prod.fst).Nodup) (hcols : X.cols.map Prod.fst = schema) :
    align_features schema X = X := by
  obtain ⟨nr, cols⟩ := X
  have : (align_features schema ⟨nr, cols⟩).cols = cols := by
    rw [align_features_cols, ← hcols, List.map_map]
    have : ∀ p ∈ cols, ((fun n => (n, alignedCol ⟨nr, cols⟩ n)) ∘ Prod.fst) p = p := by
      intro p hp
      have := find?_pair_nodup cols p hnd hp
      simp only [Function.comp, alignedCol, this]
    rw [List.map_congr_left this, List.map_id']
  have h2 : align_features schema ⟨nr, cols⟩
      = ⟨nr, (align_features schema ⟨nr, cols⟩).cols⟩ := rfl
  rw [h2, this]

/-- C5: alignment returns exactly the schema's columns in schema order,
fills schema columns missing from X with zero columns, returns an
already-aligned matrix unchanged, and is idempotent.  (Pandas frames in
this program have distinct column names, hence the `Nodup` hypothesis.) -/
theorem C5_align_idempotent (schema : List String) (X : Frame) (hnd : schema.Nodup) :
    ((align_features schema X).cols.map Prod.fst = schema)
  ∧ (∀ n, n ∈ schema → n ∉ X.cols.map Prod.fst →
      (align_features schema X).cols.find? (fun p => p.1 == n)
        = some (n, List.replicate X.nrows 0))
  ∧ (X.cols.map Prod.fst = schema → align_features schema X = X)
  ∧ (align_features schema (align_features schema X) = align_features schema X) := by
  refine ⟨align_names schema X, ?_, ?_, ?_⟩
  · intro n hn hnotin
    rw [align_features_cols, find?_map_pair, find?_self_of_mem schema n hn]
    have hfind : X.cols.find? (fun p => p.1 == n) = none := by
      rw [List.find?_eq_none]
      intro p hp hbeq
      exact hnotin (eq_of_beq hbeq ▸ List.mem_map_of_mem Prod.fst hp)
    simp [alignedCol, hfind]
  · intro hcols
    exact align_self schema X (hcols ▸ hnd) hcols
  · exact align_self schema (align_features schema X)
      ((align_names schema X).symm ▸ hnd) (align_names schema X)

/-- Witness for C5 on a concrete schema and frame. -/
theorem C5_witness :
    align_features ["a", "b"] ⟨1, [("b", [5]), ("c", [7])]⟩
      = ⟨1, [("a", [0]), ("b", [5])]⟩
  ∧ align_features ["a", "b"] (align_features ["a", "b"] ⟨1, [("b", [5]), ("c", [7])]⟩)
      = align_features ["a", "b"] ⟨1, [("b", [5]), ("c", [7])]⟩ := by
  constructor
  · with_unfolding_all decide
  · exact (C5_align_idempotent ["a", "b"] ⟨1, [("b", [5]), ("c", [7])]⟩ (by decide)).2.2.2

/-- C7: every risk factor attached by assess_claims names one of the
model's 10 globally most important features and has absolute value above
0.1, and at most 3 factors are attached. -/
theorem C7_risk_factors (ranking : List String) (rows : List QRow) (cids : List String)
    (prs : List Bool) (pbs : List ℚ) (a : Assessment)
    (ha : a ∈ assessClaims ranking rows cids prs pbs) :
    a.risk_factors.length ≤ 3 ∧
    ∀ rf ∈ a.risk_factors, rf.1 ∈ ranking.take 10 ∧ 1 / 10 < |rf.2| := by
  obtain ⟨row, -, hrf, -⟩ := mem_assessClaims ranking rows cids prs pbs a ha
  constructor
  · rw [hrf]
    exact List.length_take_le 3 _
  · intro rf hmem
    rw [hrf] at hmem
    unfold riskFactorsOf at hmem
    obtain ⟨f, hf5, hsome⟩ := List.mem_filterMap.mp (List.mem_of_mem_take hmem)
    cases hfind : row.find? (fun p => p.1 == f) with
    | none => rw [hfind] at hsome; dsimp only at hsome; cases hsome
    | some p =>
      rw [hfind] at hsome
      dsimp only at hsome
      by_cases habs : (1 / 10 : ℚ) < |p.2|
      · rw [if_pos habs] at hsome
        cases hsome
        exact ⟨List.mem_of_mem_take hf5, habs⟩
      · rw [if_neg habs] at hsome
        cases hsome

/-- Witness for C7 on a concrete assessment. -/
theorem C7_witness :
    ((⟨"c1", true, 9 / 10, "CRITICAL", [("f1", 5)], 9 / 10⟩ : Assessment)).risk_factors.length ≤ 3 :=
  (C7_risk_factors ["f1"] [[("f1", (5 : ℚ))]] ["c1"] [true] [9 / 10]
    ⟨"c1", true, 9 / 10, "CRITICAL", [("f1", 5)], 9 / 10⟩
    (by with_unfolding_all decide)).1

/-- C8: a templated risk factor is flagged exactly when the threshold
condition holds — non-negative threshold t flags iff value ≥ t, negative
t flags iff value ≤ |t|; in particular days_since_policy_start (threshold
-30) flags iff the value is ≤ 30. -/
theorem C8_red_flag_thresholds (i : Nat) (name : String) (v : ℚ) (t : RuleTemplate)
    (h : lookupTemplate name = some t) :
    ((flagFor i (name, v)).isSome = true ↔
       (0 ≤ t.threshold ∧ t.threshold ≤ v) ∨ (t.threshold < 0 ∧ v ≤ |t.threshold|))
  ∧ lookupTemplate "days_since_policy_start" = some ⟨-30, "MEDIUM", "Timing Issue"⟩
  ∧ (∀ w : ℚ, (flagFor i ("days_since_policy_start", w)).isSome = true ↔ w ≤ 30)
  ∧ (generate_red_flags [(name, v)] ≠ [] ↔ (flagFor 1 (name, v)).isSome = true) := by
  have hd : lookupTemplate "days_since_policy_start"
      = some ⟨-30, "MEDIUM", "Timing Issue"⟩ := by
    with_unfolding_all decide
  have hmain : ∀ (j : Nat) (nm : String) (w : ℚ) (u : RuleTemplate),
      lookupTemplate nm = some u →
      ((flagFor j (nm, w)).isSome = true ↔
        (0 ≤ u.threshold ∧ u.threshold ≤ w) ∨ (u.threshold < 0 ∧ w ≤ |u.threshold|)) := by
    intro j nm w u hu
    unfold flagFor
    dsimp only
    rw [hu]
    dsimp only
    by_cases hf : shouldFlag u.threshold w = true
    · rw [if_pos hf]
      simp only [Option.isSome_some, true_iff]
      unfold shouldFlag at hf
      rcases Bool.or_eq_true_iff.mp hf with hc | hc
      · obtain ⟨h1, h2⟩ := Bool.and_eq_true_iff.mp hc
        exact Or.inl ⟨of_decide_eq_true h1, of_decide_eq_true h2⟩
      · obtain ⟨h1, h2⟩ := Bool.and_eq_true_iff.mp hc
        exact Or.inr ⟨of_decide_eq_true h1, of_decide_eq_true h2⟩
    · rw [if_neg hf]
      simp only [Option.isSome_none, Bool.false_eq_true, false_iff]
      intro hcond
      apply hf
      unfold shouldFlag
      rcases hcond with ⟨h1, h2⟩ | ⟨h1, h2⟩
      · exact Bool.or_eq_true_iff.mpr (Or.inl
          (Bool.and_eq_true_iff.mpr ⟨decide_eq_true h1, decide_eq_true h2⟩))
      · exact Bool.or_eq_true_iff.mpr (Or.inr
          (Bool.and_eq_true_iff.mpr ⟨decide_eq_true h1, decide_eq_true h2⟩))
  refine ⟨hmain i name v t h, hd, ?_, ?_⟩
  · intro w
    rw [hmain i "days_since_policy_start" w ⟨-30, "MEDIUM", "Timing Issue"⟩ hd]
    constructor
    · rintro (⟨h1, _⟩ | ⟨_, h2⟩)
      · norm_num at h1
      · rw [show |(-30 : ℚ)| = 30 by norm_num] at h2
        exact h2
    · intro hw
      exact Or.inr ⟨by norm_num, by rw [show |(-30 : ℚ)| = 30 by norm_num]; exact hw⟩
  · have hred : generate_red_flags [(name, v)]
        = (flagFor 1 (name, v)).toList := by
      unfold generate_red_flags
      cases hf : flagFor 1 (name, v) <;> simp [List.enum, List.enumFrom, hf]
    rw [hred]
    cases hf : flagFor 1 (name, v) <;> simp

/-- Witness for C8 on the provider_fraud_rate template. -/
theorem C8_witness :
    (flagFor 1 ("provider_fraud_rate", 1 / 5)).isSome = true ↔
      ((0 ≤ (3 / 20 : ℚ) ∧ (3 / 20 : ℚ) ≤ 1 / 5)
        ∨ ((3 / 20 : ℚ) < 0 ∧ (1 / 5 : ℚ) ≤ |(3 / 20 : ℚ)|)) :=
  (C8_red_flag_thresholds 1 "provider_fraud_rate" (1 / 5)
    ⟨3 / 20, "CRITICAL", "Provider Pattern"⟩ (by with_unfolding_all decide)).1

/-! ## Provider fraud-rate lemmas (for C6) -/

lemma sumQ_cons (x : ℚ) (xs : List ℚ) : sumQ (x :: xs) = x + sumQ xs := rfl

lemma sumQ_indicator (l : List Claim) :
    sumQ (l.map (fun c => if c.is_fraudulent then (1 : ℚ) else 0))
      = (l.countP (fun c => c.is_fraudulent) : ℚ) := by
  induction l with
  | nil => simp [sumQ]
  | cons c cs ih =>
    rw [List.map_cons, sumQ_cons, ih, List.countP_cons]
    by_cases hc : c.is_fraudulent <;> simp [hc] <;> push_cast <;> ring

lemma meanP_cons (x : ℚ) (xs : List ℚ) :
    meanP (x :: xs) = .num (sumQ (x :: xs) / ((x :: xs).length : ℚ)) := rfl

lemma meanP_indicator (l : List Claim) (h : l ≠ []) :
    meanP (l.map (fun c => if c.is_fraudulent then (1 : ℚ) else 0))
      = .num ((l.countP (fun c => c.is_fraudulent) : ℚ) / (l.length : ℚ)) := by
  cases l with
  | nil => cases h rfl
  | cons x xs =>
    rw [List.map_cons, meanP_cons]
    have hs := sumQ_indicator (x :: xs)
    rw [List.map_cons] at hs
    rw [hs]
    simp [List.length_map]

lemma mem_providerClaims_self (db : Database) (c : Claim) (hc : c ∈ db.claims) :
    c ∈ providerClaims db c.provider_id :=
  List.mem_filter.mpr ⟨hc, by simp⟩

/-- C6: the provider_fraud_rate feature is the empirical fraud rate among
the provider's labelled claims (count fraudulent / count labelled), and 0
when the claim table carries no fraud labels; the feature row exposes
exactly this value under the provider_fraud_rate column. -/
theorem C6_provider_fraud_rate (db : Database) (c : Claim) (hc : c ∈ db.claims) :
    (db.hasFraudLabels = true →
      providerFraudRate db c.provider_id
        = .num (((providerClaims db c.provider_id).countP (fun x => x.is_fraudulent) : ℚ)
            / ((providerClaims db c.provider_id).length : ℚ)))
  ∧ (db.hasFraudLabels = false → providerFraudRate db c.provider_id = .num 0)
  ∧ (providerFeatureRow db c).find? (fun p => p.1 == "provider_fraud_rate")
      = some ("provider_fraud_rate", providerFraudRate db c.provider_id) := by
  have hne : providerClaims db c.provider_id ≠ [] := by
    intro h
    have := mem_providerClaims_self db c hc
    rw [h] at this
    cases this
  refine ⟨?_, ?_, ?_⟩
  · intro hl
    unfold providerFraudRate
    rw [if_pos hl]
    exact meanP_indicator _ hne
  · intro hl
    simp [providerFraudRate, hl]
  · rfl

/-- Witness for C6: the spec's 0-of-10 and 3-of-10 scenarios. -/
def dbC6 : Database :=
  { patients := [⟨"P1", some 7000, "M"⟩, ⟨"P2", some 8000, "F"⟩]
    providers := [⟨"V1", some "Cardiology"⟩, ⟨"V2", some "Oncology"⟩]
    claims :=
      [⟨"A0", "P1", "V1", 100, "inpatient", "Approved", ⟨0, 1⟩, true⟩,
       ⟨"A1", "P1", "V1", 100, "inpatient", "Approved", ⟨1440, 1⟩, true⟩,
       ⟨"A2", "P1", "V1", 100, "inpatient", "Approved", ⟨2880, 1⟩, true⟩,
       ⟨"A3", "P1", "V1", 100, "inpatient", "Approved", ⟨4320, 1⟩, false⟩,
       ⟨"A4", "P1", "V1", 100, "inpatient", "Approved", ⟨5760, 1⟩, false⟩,
       ⟨"A5", "P1", "V1", 100, "inpatient", "Approved", ⟨7200, 1⟩, false⟩,
       ⟨"A6", "P1", "V1", 100, "inpatient", "Approved", ⟨8640, 1⟩, false⟩,
       ⟨"A7", "P1", "V1", 100, "inpatient", "Approved", ⟨10080, 1⟩, false⟩,
       ⟨"A8", "P1", "V1", 100, "inpatient", "Approved", ⟨11520, 1⟩, false⟩,
       ⟨"A9", "P1", "V1", 100, "inpatient", "Approved", ⟨12960, 1⟩, false⟩,
       ⟨"B0", "P2", "V2", 100, "outpatient", "Approved", ⟨0, 1⟩, false⟩,
       ⟨"B1", "P2", "V2", 100, "outpatient", "Approved", ⟨1440, 1⟩, false⟩,
       ⟨"B2", "P2", "V2", 100, "outpatient", "Approved", ⟨2880, 1⟩, false⟩,
       ⟨"B3", "P2", "V2", 100, "outpatient", "Approved", ⟨4320, 1⟩, false⟩,
       ⟨"B4", "P2", "V2", 100, "outpatient", "Approved", ⟨5760, 1⟩, false⟩,
       ⟨"B5", "P2", "V2", 100, "outpatient", "Approved", ⟨7200, 1⟩, false⟩,
       ⟨"B6", "P2", "V2", 100, "outpatient", "Approved", ⟨8640, 1⟩, false⟩,
       ⟨"B7", "P2", "V2", 100, "outpatient", "Approved", ⟨10080, 1⟩, false⟩,
       ⟨"B8", "P2", "V2", 100, "outpatient", "Approved", ⟨11520, 1⟩, false⟩,
       ⟨"B9", "P2", "V2", 100, "outpatient", "Approved", ⟨12960, 1⟩, false⟩]
    hasFraudLabels := true
    now := 20000 }

theorem C6_witness :
    providerFraudRate dbC6 "V1" = .num (3 / 10)
  ∧ providerFraudRate dbC6 "V2" = .num 0 := by
  have h1 := (C6_provider_fraud_rate dbC6
      ⟨"A0", "P1", "V1", 100, "inpatient", "Approved", ⟨0, 1⟩, true⟩
      (by with_unfolding_all decide)).1 rfl
  have h2 := (C6_provider_fraud_rate dbC6
      ⟨"B0", "P2", "V2", 100, "outpatient", "Approved", ⟨0, 1⟩, false⟩
      (by with_unfolding_all decide)).1 rfl
  constructor
  · rw [show ("V1" : String)
        = (⟨"A0", "P1", "V1", 100, "inpatient", "Approved", ⟨0, 1⟩, true⟩ : Claim).provider_id
        from rfl, h1]
    with_unfolding_all decide
  · rw [show ("V2" : String)
        = (⟨"B0", "P2", "V2", 100, "outpatient", "Approved", ⟨0, 1⟩, false⟩ : Claim).provider_id
        from rfl, h2]
    with_unfolding_all decide

/-- C10: a request whose ids match no loaded claim makes extraction fail
(IndexError while building patient statistics) instead of returning an
empty feature list; extraction succeeds whenever at least one requested
claim exists. -/
theorem C10_empty_request (db : Database) (ids : List String) :
    ((∀ c ∈ db.claims, c.claim_id ∉ ids) →
      extract_all_features db (some ids) = .error "IndexError: patient_ids is empty")
  ∧ (∀ c ∈ db.claims, c.claim_id ∈ ids →
      extract_all_features db (some ids)
        = .ok ((subsetClaims db (some ids)).map
            (fun x => (x.claim_id, featureRow db (subsetClaims db (some ids)) x)))) := by
  constructor
  · intro hempty
    have hsub : subsetClaims db (some ids) = [] := by
      unfold subsetClaims
      rw [List.filter_eq_nil_iff]
      intro c hcm hcontains
      exact hempty c hcm (by simpa using hcontains)
    unfold extract_all_features
    rw [hsub]
    rfl
  · intro c hc hid
    have hsub : c ∈ subsetClaims db (some ids) :=
      List.mem_filter.mpr ⟨hc, by simpa using hid⟩
    unfold extract_all_features
    cases hs : subsetClaims db (some ids) with
    | nil => rw [hs] at hsub; cases hsub
    | cons x xs => rfl

/-- Witness for C10: a one-claim store with an unknown requested id fails;
requesting the loaded claim succeeds. -/
def dbC10 : Database :=
  { patients := [⟨"P1", some 7000, "M"⟩]
    providers := [⟨"V1", some "Cardiology"⟩]
    claims := [⟨"C1", "P1", "V1", 100, "inpatient", "Approved", ⟨0, 1⟩, false⟩]
    hasFraudLabels := true
    now := 20000 }

theorem C10_witness :
    extract_all_features dbC10 (some ["ZZZ"]) = .error "IndexError: patient_ids is empty"
  ∧ (extract_all_features dbC10 (some ["C1"])).isOk = true := by
  constructor
  · exact (C10_empty_request dbC10 ["ZZZ"]).1 (by decide)
  · rw [(C10_empty_request dbC10 ["C1"]).2
      ⟨"C1", "P1", "V1", 100, "inpatient", "Approved", ⟨0, 1⟩, false⟩ (by decide) (by decide)]
    rfl

/-! ## Non-finite values and missing patients (C3, C4, C1) -/

/-- All cells of a row are finite. -/
def rowAllFinite (r : Row) : Bool := r.all (fun p => p.2.isFinite)

/-- All cells of every row of an extraction result are finite (vacuously
true on the error case). -/
def extractAllFinite (e : Except String (List (String × Row))) : Bool :=
  match e with
  | .ok l => l.all (fun p => rowAllFinite p.2)
  | .error _ => true

/-- All feature cells of a prepared training set are finite. -/
def trainingAllFinite (e : Except String (List (Row × Bool))) : Bool :=
  match e with
  | .ok l => l.all (fun q => rowAllFinite q.1)
  | .error _ => true

lemma rowAllFinite_fill (r : Row) : rowAllFinite (fillNonFinite r) = true := by
  rw [rowAllFinite, fillNonFinite, List.all_map, List.all_eq_true]
  intro p _
  rcases p with ⟨n, v⟩
  cases v <;> rfl

/-- A store whose single claim references a patient id with no patient
record. -/
def dbC3 : Database :=
  { patients := []
    providers := [⟨"V1", some "Cardiology"⟩]
    claims := [⟨"C1", "PX", "V1", 100, "inpatient", "Approved", ⟨0, 1⟩, false⟩]
    hasFraudLabels := true
    now := 20000 }

/-- Counterexample to C3: the raw `extract_all_features` output can carry
a NaN cell (the `patient_age` of a claim whose patient id has no patient
record) — the NaN/inf normalization does not happen inside the engine. -/
theorem C3_counterexample :
    extractAllFinite (extract_all_features dbC3 (some ["C1"])) = false := by
  with_unfolding_all decide

/-- C3 amended: finiteness holds after the caller-side
`fillna(0)`/`replace(±inf, 0)` step — on the scoring path
(`detect_fraud_by_claim_ids`) and on the training path
(`prepare_training_data`) — not inside `extract_all_features` itself. -/
theorem C3_filled_values_finite (db : Database) (ids : Option (List String)) :
    extractAllFinite (extract_features_filled db ids) = true
  ∧ trainingAllFinite (prepare_training_data db) = true := by
  constructor
  · unfold extract_features_filled
    cases he : extract_all_features db ids with
    | error s => rfl
    | ok l =>
      show List.all _ _ = true
      rw [List.all_eq_true]
      intro q hq
      obtain ⟨p, -, rfl⟩ := List.mem_map.mp hq
      exact rowAllFinite_fill p.2
  · unfold prepare_training_data
    cases he : extract_all_features db none with
    | error s => rfl
    | ok l =>
      show List.all _ _ = true
      rw [List.all_eq_true]
      intro q hq
      obtain ⟨p, -, rfl⟩ := List.mem_map.mp hq
      exact rowAllFinite_fill p.2

/-- Extraction succeeds and produces one keyed row per selected claim as
soon as one requested id matches a claim. -/
lemma extract_ok_of_mem (db : Database) (ids : List String) (c : Claim)
    (hc : c ∈ db.claims) (hid : c.claim_id ∈ ids) :
    extract_all_features db (some ids)
      = .ok ((subsetClaims db (some ids)).map
          (fun x => (x.claim_id, featureRow db (subsetClaims db (some ids)) x))) := by
  have hsub : c ∈ subsetClaims db (some ids) :=
    List.mem_filter.mpr ⟨hc, by simpa using hid⟩
  unfold extract_all_features
  cases hs : subsetClaims db (some ids) with
  | nil => rw [hs] at hsub; cases hsub
  | cons x xs => rfl

/-- Same store shape as `dbC3`, dedicated to C4. -/
def dbC4 : Database :=
  { patients := []
    providers := [⟨"V1", some "Cardiology"⟩]
    claims := [⟨"C1", "PX", "V1", 100, "inpatient", "Approved", ⟨0, 1⟩, false⟩]
    hasFraudLabels := true
    now := 20000 }

/-- The claim-id column of a successful extraction. -/
def outputKeys (e : Except String (List (String × Row))) : Option (List String) :=
  e.toOption.map (fun l => l.map Prod.fst)

/-- Counterexample to C4: the claim referencing the unknown patient id
`PX` is NOT excluded — its row (keyed `C1`) is present in the successful
extraction output. -/
theorem C4_counterexample :
    outputKeys (extract_all_features dbC4 (some ["C1"])) = some ["C1"]
  ∧ dbC4.patients.find? (fun p => p.patient_id == "PX") = none := by
  constructor
  · with_unfolding_all decide
  · rfl

/-- C4 amended: a claim whose patient id has no patient record is
retained in the extraction output (keyed by its claim id) with a NaN
`patient_age` cell, and its presence does not make the batch fail. -/
theorem C4_missing_patient_retained (db : Database) (ids : List String) (c : Claim)
    (hc : c ∈ db.claims) (hid : c.claim_id ∈ ids)
    (hmissing : db.patients.find? (fun p => p.patient_id == c.patient_id) = none) :
    (∃ l, extract_all_features db (some ids) = .ok l ∧ c.claim_id ∈ l.map Prod.fst)
  ∧ ageOf db c.patient_id = PVal.nan := by
  constructor
  · refine ⟨_, extract_ok_of_mem db ids c hc hid, ?_⟩
    have hsub : c ∈ subsetClaims db (some ids) :=
      List.mem_filter.mpr ⟨hc, by simpa using hid⟩
    rw [List.map_map]
    exact List.mem_map.mpr ⟨c, hsub, rfl⟩
  · unfold ageOf
    rw [hmissing]

/-- Witness for C4 on the concrete store. -/
theorem C4_witness : ageOf dbC4 "PX" = PVal.nan :=
  (C4_missing_patient_retained dbC4 ["C1"]
    ⟨"C1", "PX", "V1", 100, "inpatient", "Approved", ⟨0, 1⟩, false⟩
    (by decide) (by decide) (by decide)).2

/-! ## Request-(in)dependence of feature rows (C1) -/

/-- Two-claim store with distinct claim types. -/
def dbC1 : Database :=
  { patients := [⟨"P1", some 7000, "M"⟩]
    providers := [⟨"V1", some "Cardiology"⟩]
    claims :=
      [⟨"A", "P1", "V1", 100, "inpatient", "Approved", ⟨0, 1⟩, false⟩,
       ⟨"B", "P1", "V1", 200, "outpatient", "Approved", ⟨1440, 1⟩, false⟩]
    hasFraudLabels := true
    now := 20000 }

/-- The row keyed by a claim id in an extraction result. -/
def rowFor (e : Except String (List (String × Row))) (cid : String) : Option Row :=
  e.toOption.bind (fun l => (l.find? (fun p => p.1 == cid)).map Prod.snd)

/-- Counterexample to C1: the row extracted for claim B from the request
[A, B] differs from the row extracted for B from the request [B] — the
one-hot claim-type columns are derived from the requested subset, so the
first row carries a claim_type_inpatient column the second lacks (the
column-name lists already differ). -/
theorem C1_counterexample :
    (rowFor (extract_all_features dbC1 (some ["A", "B"])) "B").map (List.map Prod.fst)
      ≠ (rowFor (extract_all_features dbC1 (some ["B"])) "B").map (List.map Prod.fst) := by
  with_unfolding_all decide

/-- C1 amended: a claim's extracted row is invariant to the requested id
set as long as the two requests observe the same claim-type and
claim-status value sets (in particular under reordering of the ids); all
other columns — including the specialty one-hots, whose schema comes from
the full provider population — never depend on the request. -/
theorem C1_row_request_invariance (db : Database) (ids1 ids2 : List String) (c : Claim)
    (h1 : c ∈ subsetClaims db (some ids1)) (h2 : c ∈ subsetClaims db (some ids2))
    (ht : claimTypeSchema (subsetClaims db (some ids1))
        = claimTypeSchema (subsetClaims db (some ids2)))
    (hs : claimStatusSchema (subsetClaims db (some ids1))
        = claimStatusSchema (subsetClaims db (some ids2))) :
    featureRow db (subsetClaims db (some ids1)) c
      = featureRow db (subsetClaims db (some ids2)) c
  ∧ ((∀ x : String, x ∈ ids1 ↔ x ∈ ids2) →
      extract_all_features db (some ids1) = extract_all_features db (some ids2))
  ∧ extract_all_features db (some ids1)
      = .ok ((subsetClaims db (some ids1)).map
          (fun x => (x.claim_id, featureRow db (subsetClaims db (some ids1)) x))) := by
  refine ⟨?_, ?_, ?_⟩
  · unfold featureRow
    rw [ht, hs]
  · intro hperm
    have hsub : subsetClaims db (some ids1) = subsetClaims db (some ids2) := by
      unfold subsetClaims
      apply List.filter_congr
      intro x _
      have hx := hperm x.claim_id
      by_cases hm : x.claim_id ∈ ids1
      · have hm2 := hx.mp hm
        show ids1.elem x.claim_id = ids2.elem x.claim_id
        rw [List.elem_eq_mem, List.elem_eq_mem, decide_eq_true hm, decide_eq_true hm2]
      · have hm2 : x.claim_id ∉ ids2 := fun h => hm (hx.mpr h)
        show ids1.elem x.claim_id = ids2.elem x.claim_id
        rw [List.elem_eq_mem, List.elem_eq_mem, decide_eq_false hm, decide_eq_false hm2]
    unfold extract_all_features
    rw [hsub]
  · obtain ⟨hc, hin⟩ := List.mem_filter.mp h1
    exact extract_ok_of_mem db ids1 c hc (by simpa using hin)

/-- Witness for C1: permuting the requested ids leaves claim B's row (and
the whole output) unchanged. -/
theorem C1_witness :
    featureRow dbC1 (subsetClaims dbC1 (some ["A", "B"]))
        ⟨"B", "P1", "V1", 200, "outpatient", "Approved", ⟨1440, 1⟩, false⟩
      = featureRow dbC1 (subsetClaims dbC1 (some ["B", "A"]))
        ⟨"B", "P1", "V1", 200, "outpatient", "Approved", ⟨1440, 1⟩, false⟩ := by
  have h := C1_row_request_invariance dbC1 ["A", "B"] ["B", "A"]
    ⟨"B", "P1", "V1", 200, "outpatient", "Approved", ⟨1440, 1⟩, false⟩
    (by decide) (by decide) (by decide) (by decide)
  exact h.1

/-! ## Graph-distance theory (for C9): walks, shortening, bounded search -/

/-- Adjacency as a proposition. -/
def Adj (g : GraphT) (x y : String) : Prop := adjB g x y = true

lemma reachIn_zero (g : GraphT) (a b : String) : reachIn g 0 a b = (a == b) := rfl

lemma reachIn_succ (g : GraphT) (n : Nat) (a b : String) :
    reachIn g (n + 1) a b = (successors g a).any (fun c => reachIn g n c b) := rfl

lemma mem_successors (g : GraphT) (a c : String) :
    c ∈ successors g a ↔ adjB g a c = true := by
  unfold successors adjB
  rw [List.mem_filterMap, List.any_eq_true]
  constructor
  · rintro ⟨e, he, hsome⟩
    refine ⟨e, he, ?_⟩
    by_cases h1 : (e.1 == a) = true
    · rw [if_pos h1] at hsome
      injection hsome with h2
      subst h2
      rw [Bool.or_eq_true_iff]
      exact Or.inl (Bool.and_eq_true_iff.mpr ⟨h1, beq_self_eq_true e.2⟩)
    · rw [if_neg h1] at hsome
      by_cases h2 : (e.2 == a) = true
      · rw [if_pos h2] at hsome
        injection hsome with h3
        subst h3
        rw [Bool.or_eq_true_iff]
        exact Or.inr (Bool.and_eq_true_iff.mpr ⟨beq_self_eq_true e.1, h2⟩)
      · rw [if_neg h2] at hsome
        cases hsome
  · rintro ⟨e, he, hor⟩
    rcases Bool.or_eq_true_iff.mp hor with hc | hc
    · obtain ⟨h1, h2⟩ := Bool.and_eq_true_iff.mp hc
      exact ⟨e, he, by rw [if_pos h1]; exact congrArg some (eq_of_beq h2)⟩
    · obtain ⟨h1, h2⟩ := Bool.and_eq_true_iff.mp hc
      by_cases h3 : (e.1 == a) = true
      · refine ⟨e, he, ?_⟩
        rw [if_pos h3]
        have hec : e.2 = c := by rw [eq_of_beq h2, ← eq_of_beq h3, eq_of_beq h1]
        exact congrArg some hec
      · exact ⟨e, he, by rw [if_neg h3, if_pos h2]; exact congrArg some (eq_of_beq h1)⟩

/-- A walk in the graph: a non-empty vertex list with adjacent consecutive
vertices, fixed first and last vertex. -/
structure WalkFromTo (g : GraphT) (w : List String) (a b : String) : Prop where
  chain : List.Chain' (Adj g) w
  ne : w ≠ []
  headEq : w.head? = some a
  lastEq : w.getLast? = some b

/-- Correspondence: `reachIn g n a b` holds exactly when some walk with `n + 1` vertices
joins `a` to `b`. -/
lemma reachIn_iff_walk (g : GraphT) (b : String) :
    ∀ (n : Nat) (a : String),
      reachIn g n a b = true ↔ ∃ w, WalkFromTo g w a b ∧ w.length = n + 1 := by
  intro n
  induction n with
  | zero =>
    intro a
    rw [reachIn_zero]
    constructor
    · intro h
      exact ⟨[a], ⟨List.chain'_singleton a, by simp, by simp, by simp [eq_of_beq h]⟩, by simp⟩
    · rintro ⟨w, hw, hlen⟩
      cases w with
      | nil => exact absurd rfl hw.ne
      | cons x xs =>
        cases xs with
        | nil =>
          have hx1 : x = a := by have := hw.headEq; simpa using this
          have hx2 : x = b := by have := hw.lastEq; simpa using this
          subst hx1
          rw [hx2]
          exact beq_self_eq_true b
        | cons y ys =>
          exfalso
          simp [List.length_cons] at hlen
  | succ n ih =>
    intro a
    rw [reachIn_succ, List.any_eq_true]
    constructor
    · rintro ⟨c, hc, hr⟩
      obtain ⟨w, hw, hlen⟩ := (ih c).mp hr
      cases w with
      | nil => exact absurd rfl hw.ne
      | cons z zs =>
        have hz : z = c := by have := hw.headEq; simpa using this
        subst hz
        refine ⟨a :: z :: zs, ⟨?_, by simp, by simp, ?_⟩, ?_⟩
        · exact List.chain'_cons.mpr ⟨(mem_successors g a z).mp hc, hw.chain⟩
        · rw [List.getLast?_cons_cons]
          exact hw.lastEq
        · simp only [List.length_cons] at hlen ⊢
          omega
    · rintro ⟨w, hw, hlen⟩
      cases w with
      | nil => exact absurd rfl hw.ne
      | cons x w' =>
        have hx : x = a := by have := hw.headEq; simpa using this
        subst hx
        cases w' with
        | nil =>
          exfalso
          simp [List.length_cons] at hlen
        | cons c w'' =>
          obtain ⟨hadj, hch⟩ := List.chain'_cons.mp hw.chain
          refine ⟨c, (mem_successors g x c).mpr hadj, (ih c).mpr
            ⟨c :: w'', ⟨hch, by simp, by simp, ?_⟩, ?_⟩⟩
          · have := hw.lastEq
            rwa [List.getLast?_cons_cons] at this
          · simp only [List.length_cons] at hlen ⊢
            omega

lemma exists_dup_split (l : List String) (h : ¬ l.Nodup) :
    ∃ (l₁ : List String) (x : String) (l₂ l₃ : List String),
      l = l₁ ++ (x :: l₂) ++ (x :: l₃) := by
  induction l with
  | nil => exact absurd List.nodup_nil h
  | cons y ys ih =>
    by_cases hy : y ∈ ys
    · obtain ⟨s, t, rfl⟩ := List.append_of_mem hy
      exact ⟨[], y, s, t, by simp⟩
    · have hnd : ¬ ys.Nodup := fun hn => h (List.nodup_cons.mpr ⟨hy, hn⟩)
      obtain ⟨l₁, x, l₂, l₃, rfl⟩ := ih hnd
      exact ⟨y :: l₁, x, l₂, l₃, by simp⟩

lemma chain'_shorten {g : GraphT} {l₁ l₂ l₃ : List String} {x : String}
    (h : List.Chain' (Adj g) (l₁ ++ (x :: l₂) ++ (x :: l₃))) :
    List.Chain' (Adj g) (l₁ ++ (x :: l₃)) := by
  rw [List.chain'_append] at h
  obtain ⟨h12, h3, hlink⟩ := h
  rw [List.chain'_append] at h12
  obtain ⟨h1, h2, hlink2⟩ := h12
  rw [List.chain'_append]
  refine ⟨h1, h3, ?_⟩
  intro u hu v hv
  have hv' : x = v := by simpa using hv
  subst hv'
  exact hlink2 u hu x (by simp)

lemma getLast?_cons_isSome (x : String) (l : List String) :
    ∃ v, (x :: l).getLast? = some v := by
  induction l generalizing x with
  | nil => exact ⟨x, rfl⟩
  | cons y ys ih =>
    obtain ⟨v, hv⟩ := ih y
    exact ⟨v, by rw [List.getLast?_cons_cons]; exact hv⟩

lemma walk_shorten (g : GraphT) (a b : String) :
    ∀ (n : Nat) (w : List String), w.length ≤ n → WalkFromTo g w a b →
      ∃ w', WalkFromTo g w' a b ∧ w'.Nodup ∧ w'.length ≤ w.length := by
  intro n
  induction n with
  | zero =>
    intro w hle hw
    cases w with
    | nil => exact absurd rfl hw.ne
    | cons x xs => simp [List.length_cons] at hle
  | succ n ih =>
    intro w hle hw
    by_cases hnd : w.Nodup
    · exact ⟨w, hw, hnd, le_refl _⟩
    · obtain ⟨l₁, x, l₂, l₃, rfl⟩ := exists_dup_split w hnd
      obtain ⟨v, hv⟩ := getLast?_cons_isSome x l₃
      have hw' : WalkFromTo g (l₁ ++ (x :: l₃)) a b := by
        refine ⟨chain'_shorten hw.chain, by simp, ?_, ?_⟩
        · have horig := hw.headEq
          cases l₁ with
          | nil => simpa using horig
          | cons y ys => simpa using horig
        · have horig := hw.lastEq
          rw [List.getLast?_append, hv] at horig
          rw [List.getLast?_append, hv]
          simpa using horig
      have hlt : (l₁ ++ (x :: l₃)).length ≤ n := by
        simp only [List.length_append, List.length_cons] at hle ⊢
        omega
      obtain ⟨w'', hw'', hnd'', hle''⟩ := ih (l₁ ++ (x :: l₃)) hlt hw'
      refine ⟨w'', hw'', hnd'', le_trans hle'' ?_⟩
      simp only [List.length_append, List.length_cons]
      omega

lemma adj_mem_endpoints {g : GraphT} {x y : String} (h : adjB g x y = true) :
    x ∈ endpointList g ∧ y ∈ endpointList g := by
  unfold adjB at h
  obtain ⟨e, he, hcond⟩ := List.any_eq_true.mp h
  unfold endpointList
  rcases Bool.or_eq_true_iff.mp hcond with hc | hc
  · obtain ⟨h1, h2⟩ := Bool.and_eq_true_iff.mp hc
    constructor
    · exact List.mem_append.mpr (Or.inl (eq_of_beq h1 ▸ List.mem_map_of_mem Prod.fst he))
    · exact List.mem_append.mpr (Or.inr (eq_of_beq h2 ▸ List.mem_map_of_mem Prod.snd he))
  · obtain ⟨h1, h2⟩ := Bool.and_eq_true_iff.mp hc
    constructor
    · exact List.mem_append.mpr (Or.inr (eq_of_beq h2 ▸ List.mem_map_of_mem Prod.snd he))
    · exact List.mem_append.mpr (Or.inl (eq_of_beq h1 ▸ List.mem_map_of_mem Prod.fst he))

lemma walk_subset_endpoints (g : GraphT) :
    ∀ (w : List String), List.Chain' (Adj g) w → 2 ≤ w.length →
      ∀ x ∈ w, x ∈ endpointList g := by
  intro w
  induction w with
  | nil => intro _ _ x hx; cases hx
  | cons y ys ih =>
    intro hchain hlen x hx
    cases ys with
    | nil => simp [List.length_cons] at hlen
    | cons z zs =>
      obtain ⟨hyz, hch⟩ := List.chain'_cons.mp hchain
      rcases List.mem_cons.mp hx with rfl | hx2
      · exact (adj_mem_endpoints hyz).1
      · cases zs with
        | nil =>
          rcases List.mem_cons.mp hx2 with rfl | hx3
          · exact (adj_mem_endpoints hyz).2
          · cases hx3
        | cons u us =>
          exact ih hch (by simp only [List.length_cons]; omega) x hx2

lemma nodup_walk_length_le (g : GraphT) (w : List String)
    (hch : List.Chain' (Adj g) w) (hnd : w.Nodup) (h2 : 2 ≤ w.length) :
    w.length ≤ (endpointList g).length := by
  have hsub : w ⊆ endpointList g := fun x hx => walk_subset_endpoints g w hch h2 x hx
  exact (List.subperm_of_subset hnd hsub).length_le

/-- Any reachability witness can be shortened to one within the search
bound of `shortestPathLen`. -/
lemma reach_le_bound (g : GraphT) (a b : String) (n : Nat)
    (h : reachIn g n a b = true) :
    ∃ m ≤ (endpointList g).length, reachIn g m a b = true := by
  obtain ⟨w, hw, hlen⟩ := (reachIn_iff_walk g b n a).mp h
  obtain ⟨w', hw', hnd, hle⟩ := walk_shorten g a b w.length w (le_refl _) hw
  rcases hl : w'.length with _ | m
  · exact absurd (List.length_eq_zero.mp hl) hw'.ne
  · refine ⟨m, ?_, (reachIn_iff_walk g b m a).mpr ⟨w', hw', hl⟩⟩
    cases m with
    | zero => exact Nat.zero_le _
    | succ k =>
      have h2 : 2 ≤ w'.length := by omega
      have hb := nodup_walk_length_le g w' hw'.chain hnd h2
      omega

lemma firstReachAux_some (g : GraphT) (a b : String) :
    ∀ (fuel cur d : Nat), firstReachAux g a b fuel cur = some d →
      reachIn g d a b = true ∧ cur ≤ d ∧
      ∀ m, cur ≤ m → m < d → reachIn g m a b = false := by
  intro fuel
  induction fuel with
  | zero => intro cur d h; cases h
  | succ f ih =>
    intro cur d h
    rw [firstReachAux] at h
    by_cases hr : reachIn g cur a b = true
    · rw [if_pos hr] at h
      injection h with h
      subst h
      exact ⟨hr, le_refl _, fun m h1 h2 => absurd h1 (by omega)⟩
    · rw [if_neg hr] at h
      obtain ⟨h1, h2, h3⟩ := ih (cur + 1) d h
      refine ⟨h1, by omega, fun m hm1 hm2 => ?_⟩
      by_cases hmc : m = cur
      · subst hmc
        exact Bool.eq_false_iff.mpr hr
      · exact h3 m (by omega) hm2

lemma firstReachAux_complete (g : GraphT) (a b : String) :
    ∀ (fuel cur d : Nat), cur ≤ d → d < cur + fuel →
      reachIn g d a b = true →
      (∀ m, cur ≤ m → m < d → reachIn g m a b = false) →
      firstReachAux g a b fuel cur = some d := by
  intro fuel
  induction fuel with
  | zero => intro cur d h1 h2 _ _; omega
  | succ f ih =>
    intro cur d h1 h2 h3 h4
    rw [firstReachAux]
    by_cases hc : d = cur
    · subst hc
      rw [if_pos h3]
    · have hcf : reachIn g cur a b = false := h4 cur (le_refl _) (by omega)
      rw [if_neg (by rw [hcf]; exact Bool.false_ne_true)]
      exact ih (cur + 1) d (by omega) (by omega) h3 (fun m hm1 hm2 => h4 m (by omega) hm2)

/-- The bounded search in `shortestPathLen` computes the true least walk
length whenever one exists. -/
lemma shortestPathLen_eq_find (g : GraphT) (a b : String)
    (h : ∃ n, reachIn g n a b = true) :
    shortestPathLen g a b = some (Nat.find h) := by
  have hd : reachIn g (Nat.find h) a b = true := Nat.find_spec h
  have hmin : ∀ m, m < Nat.find h → reachIn g m a b = false :=
    fun m hm => Bool.eq_false_iff.mpr (Nat.find_min h hm)
  obtain ⟨m, hmB, hmR⟩ := reach_le_bound g a b (Nat.find h) hd
  have hdB : Nat.find h ≤ (endpointList g).length :=
    le_trans (Nat.find_min' h hmR) hmB
  unfold shortestPathLen
  exact firstReachAux_complete g a b ((endpointList g).length + 1) 0 (Nat.find h)
    (Nat.zero_le _) (by omega) hd (fun m _ hm2 => hmin m hm2)

/-- The bounded search returns `none` exactly on unreachable pairs. -/
lemma shortestPathLen_none (g : GraphT) (a b : String)
    (h : ¬ ∃ n, reachIn g n a b = true) :
    shortestPathLen g a b = none := by
  cases hres : shortestPathLen g a b with
  | none => rfl
  | some d =>
    obtain ⟨h1, -, -⟩ := firstReachAux_some g a b _ 0 d hres
    exact absurd ⟨d, h1⟩ h

lemma adj_reach_one (g : GraphT) (a b : String) (h : adjB g a b = true) :
    reachIn g 1 a b = true := by
  rw [reachIn_succ, List.any_eq_true]
  exact ⟨b, (mem_successors g a b).mpr h, by rw [reachIn_zero]; exact beq_self_eq_true b⟩

/-- Unreachability is refutable from the bounded search range alone. -/
lemma not_reachable_of_bounded (g : GraphT) (a b : String)
    (h : ∀ m, m ≤ (endpointList g).length → reachIn g m a b = false) :
    ¬ ∃ n, reachIn g n a b = true := by
  rintro ⟨n, hn⟩
  obtain ⟨m, hm, hr⟩ := reach_le_bound g a b n hn
  rw [h m hm] at hr
  cases hr

/-- C9: the graph_distance feature is 1 on a direct claim edge, the
shortest-path hop count (the least walk length) for indirectly connected
pairs, and the 999 sentinel when no path exists or either node is absent
from the graph. -/
theorem C9_graph_distance (g : GraphT) (a b : String) :
    (memNode g a = true → memNode g b = true → adjB g a b = true →
      graphDistance g a b = 1)
  ∧ ((memNode g a = false ∨ memNode g b = false) → graphDistance g a b = 999)
  ∧ (∀ (h : ∃ n, reachIn g n a b = true),
      memNode g a = true → memNode g b = true → adjB g a b = false →
      graphDistance g a b = (Nat.find h : ℚ))
  ∧ ((¬ ∃ n, reachIn g n a b = true) →
      memNode g a = true → memNode g b = true → graphDistance g a b = 999) := by
  refine ⟨?_, ?_, ?_, ?_⟩
  · intro hma hmb hadj
    unfold graphDistance
    rw [if_pos (by rw [hma, hmb]; rfl), if_pos hadj]
  · intro hor
    unfold graphDistance
    rw [if_neg (by rcases hor with h | h <;> simp [h])]
  · intro h hma hmb hadj
    unfold graphDistance
    rw [if_pos (by rw [hma, hmb]; rfl),
      if_neg (by rw [hadj]; exact Bool.false_ne_true),
      shortestPathLen_eq_find g a b h]
  · intro h hma hmb
    have hadj : adjB g a b = false := by
      cases hab : adjB g a b
      · rfl
      · exact absurd ⟨1, adj_reach_one g a b hab⟩ h
    unfold graphDistance
    rw [if_pos (by rw [hma, hmb]; rfl),
      if_neg (by rw [hadj]; exact Bool.false_ne_true),
      shortestPathLen_none g a b h]

/-- Witness store for C9: P1—V1—P2 plus the isolated patient P3. -/
def dbC9 : Database :=
  { patients := [⟨"P1", some 7000, "M"⟩, ⟨"P2", some 7000, "F"⟩, ⟨"P3", some 7000, "M"⟩]
    providers := [⟨"V1", some "Cardiology"⟩]
    claims :=
      [⟨"A", "P1", "V1", 100, "inpatient", "Approved", ⟨0, 1⟩, false⟩,
       ⟨"B", "P2", "V1", 150, "outpatient", "Approved", ⟨1440, 1⟩, false⟩]
    hasFraudLabels := true
    now := 20000 }

/-- Witness for C9: direct edge 1, two-hop distance 2, sentinel 999. -/
theorem C9_witness :
    graphDistance (buildGraph dbC9) "P1" "V1" = 1
  ∧ graphDistance (buildGraph dbC9) "P1" "P2" = 2
  ∧ graphDistance (buildGraph dbC9) "P1" "P3" = 999 := by
  refine ⟨?_, ?_, ?_⟩
  · exact (C9_graph_distance (buildGraph dbC9) "P1" "V1").1 (by decide) (by decide) (by decide)
  · have h : ∃ n, reachIn (buildGraph dbC9) n "P1" "P2" = true := ⟨2, by decide⟩
    have hgd := (C9_graph_distance (buildGraph dbC9) "P1" "P2").2.2.1 h
      (by decide) (by decide) (by decide)
    rw [hgd]
    have hf : Nat.find h = 2 := by
      rw [Nat.find_eq_iff]
      exact ⟨by decide, by decide⟩
    rw [hf]
    norm_num
  · exact (C9_graph_distance (buildGraph dbC9) "P1" "P3").2.2.2
      (not_reachable_of_bounded _ _ _ (by decide)) (by decide) (by decide)
